import Mathlib

/-!
# Verification of the async local storage library

Shallow embedding of the storage backends of the
`angular-async-local-storage` repository:

* `IndexedDBDatabase` (current version, with a `localStorage` fallback) —
  embedded as the `Idb` namespace;
* `IndexedDBDatabase` (older version, without fallback) — embedded as the
  `OldIdb` namespace;
* `LocalStorageDatabase` — embedded as the `LS` namespace;
* the `LocalStorage` facade service (only its tests are in the sources;
  the facade itself is modelled from the spec).

JavaScript values are modelled by the inductive type `JSValue` (numbers as
integers; floating point is out of scope for the verified claims).  The
`JSON.stringify` / `JSON.parse` pair used by the fallback backend is
modelled by an executable serializer and recursive-descent parser over
`List Char`, with a proved round-trip theorem.
-/

namespace AsyncLocalStorage

/-- Model of a JavaScript value as far as the storage backends are
concerned: `undef` is the JS `undefined`, `null` the JS `null`; numbers
are modelled as integers; `arr`/`obj` are arrays and plain objects. -/
inductive JSValue where
  | undef : JSValue
  | null : JSValue
  | bool (b : Bool) : JSValue
  | num (n : Int) : JSValue
  | str (s : String) : JSValue
  | arr (elems : List JSValue) : JSValue
  | obj (members : List (String × JSValue)) : JSValue
deriving Inhabited

mutual

/-- Structural (deep) equality of modelled JS values. -/
def beqVal : JSValue → JSValue → Bool
  | .undef, .undef => true
  | .null, .null => true
  | .bool a, .bool b => a == b
  | .num a, .num b => a == b
  | .str a, .str b => a == b
  | .arr as, .arr bs => beqArr as bs
  | .obj ms, .obj ns => beqObj ms ns
  | _, _ => false

/-- Structural equality of JS array contents. -/
def beqArr : List JSValue → List JSValue → Bool
  | [], [] => true
  | a :: as, b :: bs => beqVal a b && beqArr as bs
  | _, _ => false

/-- Structural equality of JS object member lists. -/
def beqObj : List (String × JSValue) → List (String × JSValue) → Bool
  | [], [] => true
  | (k, v) :: ms, (l, w) :: ns => k == l && beqVal v w && beqObj ms ns
  | _, _ => false

end

mutual

theorem beqVal_iff (a b : JSValue) : beqVal a b = true ↔ a = b := by
  cases a <;> cases b <;>
    simp only [beqVal, beq_iff_eq, JSValue.bool.injEq, JSValue.num.injEq, JSValue.str.injEq,
      JSValue.arr.injEq, JSValue.obj.injEq, reduceCtorEq, Bool.false_eq_true, iff_false,
      not_false_eq_true, iff_true]
  case arr.arr as bs => exact beqArr_iff as bs
  case obj.obj ms ns => exact beqObj_iff ms ns

theorem beqArr_iff (as bs : List JSValue) : beqArr as bs = true ↔ as = bs := by
  cases as with
  | nil => cases bs <;> simp [beqArr]
  | cons a as =>
    cases bs with
    | nil => simp [beqArr]
    | cons b bs =>
      simp only [beqArr, Bool.and_eq_true, List.cons.injEq]
      exact and_congr (beqVal_iff a b) (beqArr_iff as bs)

theorem beqObj_iff (ms ns : List (String × JSValue)) : beqObj ms ns = true ↔ ms = ns := by
  cases ms with
  | nil => cases ns <;> simp [beqObj]
  | cons m ms =>
    obtain ⟨k, v⟩ := m
    cases ns with
    | nil => simp [beqObj]
    | cons n ns =>
      obtain ⟨l, w⟩ := n
      simp only [beqObj, Bool.and_eq_true, List.cons.injEq, Prod.mk.injEq, beq_iff_eq]
      rw [beqVal_iff v w, beqObj_iff ms ns, and_assoc]

end

instance : DecidableEq JSValue := fun a b => decidable_of_iff _ (beqVal_iff a b)

/-- JS `typeof` operator restricted to the modelled values.  Note that
`typeof null` is the string `object` in JavaScript. -/
def jsTypeof : JSValue → String
  | .undef => "undefined"
  | .null => "object"
  | .bool _ => "boolean"
  | .num _ => "number"
  | .str _ => "string"
  | .arr _ => "object"
  | .obj _ => "object"

/-- JS truthiness of a value (`NaN` is out of scope since numbers are
modelled as integers). -/
def jsTruthy : JSValue → Bool
  | .undef => false
  | .null => false
  | .bool b => b
  | .num n => n != 0
  | .str s => !s.isEmpty
  | .arr _ => true
  | .obj _ => true

/-- JS property-membership test `p in r` for plain objects; arrays are
only ever queried for the property name `value` in the sources, which an
array does not have, so the array case is `false`. -/
def hasProp : JSValue → String → Bool
  | .obj ms, p => ms.any (fun m => m.1 == p)
  | _, _ => false

/-- JS property read `r[p]`: for a plain object the first binding of the
property (JS objects cannot hold duplicate keys), `undefined` when the
property is absent or the value is not an object. -/
def getProp : JSValue → String → JSValue
  | .obj ms, p => ((ms.find? (fun m => m.1 == p)).map (fun m => m.2)).getD (.undef)
  | _, _ => (.undef)

/-! ## JSON serialization (model of `JSON.stringify`)

The fallback backend stores values in `localStorage` as text via
`JSON.stringify` and reads them back via `JSON.parse`.  Both are modelled
executably below.  Numbers are serialized in decimal (the integer
fragment of the JS number grammar); strings are escaped exactly as
`JSON.stringify` does (`\"`, `\\`, the short control escapes and
`\u00XX` for the remaining control characters). -/

/-- Lower-case hexadecimal digit character for `n < 16`. -/
def hexDigitCh (n : Nat) : Char :=
  if n < 10 then Char.ofNat (48 + n) else Char.ofNat (87 + n)

/-- `JSON.stringify` escaping of one character inside a string literal. -/
def escapeChar (c : Char) : List Char :=
  if c = '"' then ['\\', '"']
  else if c = '\\' then ['\\', '\\']
  else if c = '\x08' then ['\\', 'b']
  else if c = '\x09' then ['\\', 't']
  else if c = '\x0a' then ['\\', 'n']
  else if c = '\x0c' then ['\\', 'f']
  else if c = '\x0d' then ['\\', 'r']
  else if c.toNat < 32 then
    ['\\', 'u', '0', '0', hexDigitCh (c.toNat / 16), hexDigitCh (c.toNat % 16)]
  else [c]

/-- Escaped body of a JSON string literal. -/
def serStrBody : List Char → List Char
  | [] => []
  | c :: cs => escapeChar c ++ serStrBody cs

/-- JSON string literal for a string value (opening and closing quotes
around the escaped body). -/
def serStr (s : String) : List Char :=
  '"' :: serStrBody s.data ++ ['"']

/-- Decimal digit character for `d < 10`. -/
def digitCh (d : Nat) : Char := Char.ofNat (48 + d)

/-- Decimal representation of a natural number, as emitted by
`JSON.stringify` for non-negative integral numbers. -/
def natSer (n : Nat) : List Char :=
  if n = 0 then ['0'] else ((Nat.digits 10 n).map digitCh).reverse

/-- Decimal representation of an integer. -/
def intSer (n : Int) : List Char :=
  if n < 0 then '-' :: natSer n.natAbs else natSer n.natAbs

/-- Drop the single leading comma produced by `serMembersPre` /
`serElemsPre`. -/
def dropLeadComma : List Char → List Char
  | ',' :: r => r
  | r => r

mutual

/-- Model of `JSON.stringify` producing the character list of the JSON
text.  A nested `undefined` is rendered as `null` (its array-element
behavior); an `undefined`-valued object member is skipped, as
`JSON.stringify` does.  A top-level `undefined` is intercepted by
`jsonStringifyForStorage` before this function is reached. -/
def serVal : JSValue → List Char
  | .undef => "null".data
  | .null => "null".data
  | .bool true => "true".data
  | .bool false => "false".data
  | .num n => intSer n
  | .str s => serStr s
  | .arr [] => ['[', ']']
  | .arr (v :: vs) => '[' :: serVal v ++ serElemsPre vs ++ [']']
  | .obj ms => '{' :: dropLeadComma (serMembersPre ms) ++ ['}']

/-- Serialization of the remaining array elements, each preceded by a
comma. -/
def serElemsPre : List JSValue → List Char
  | [] => []
  | v :: vs => ',' :: serVal v ++ serElemsPre vs

/-- Serialization of object members, each preceded by a comma; members
whose value is `undefined` are skipped (as `JSON.stringify` does). -/
def serMembersPre : List (String × JSValue) → List Char
  | [] => []
  | (k, v) :: ms =>
    if v = .undef then serMembersPre ms
    else ',' :: (serStr k ++ ':' :: serVal v) ++ serMembersPre ms

end

/-- `localStorage.setItem(key, JSON.stringify(data))`: `JSON.stringify`
of the JS `undefined` is `undefined` itself, which the Storage API then
coerces to the string `undefined`; every other value is serialized to
its JSON text. -/
def jsonStringifyForStorage : JSValue → String
  | .undef => "undefined"
  | v => String.mk (serVal v)

/-! ## JSON parsing (model of `JSON.parse`)

A recursive-descent parser over `List Char`, with a fuel parameter
bounding the bracket-nesting recursion.  The top-level entry point
`jsonParse` supplies enough fuel for any input of the given length, and
fails (like `JSON.parse` throwing a `SyntaxError`) when the text is not
valid JSON.  The model covers the JSON grammar without insignificant
whitespace and with numbers restricted to integers, which is the
fragment `JSON.stringify` emits for the modelled values. -/

/-- Numeric value of a hexadecimal digit character. -/
def hexVal (c : Char) : Option Nat :=
  if 48 ≤ c.toNat ∧ c.toNat ≤ 57 then some (c.toNat - 48)
  else if 97 ≤ c.toNat ∧ c.toNat ≤ 102 then some (c.toNat - 87)
  else if 65 ≤ c.toNat ∧ c.toNat ≤ 70 then some (c.toNat - 55)
  else none

/-- Numeric value of a decimal digit character. -/
def digitVal (c : Char) : Nat := c.toNat - 48

/-- Parse a non-empty run of decimal digits into a natural number,
returning the unconsumed remainder. -/
def parseNat (s : List Char) : Option (Nat × List Char) :=
  let ds := s.takeWhile Char.isDigit
  if ds.isEmpty then none
  else some (ds.foldl (fun a c => 10 * a + digitVal c) 0, s.dropWhile Char.isDigit)

/-- The character denoted by a single-letter escape sequence, or `none`
when the letter is not one of the JSON short escapes. -/
def escLetter (e : Char) : Option Char :=
  if e = '"' then some '"'
  else if e = '\\' then some '\\'
  else if e = '/' then some '/'
  else if e = 'b' then some '\x08'
  else if e = 'f' then some '\x0c'
  else if e = 'n' then some '\x0a'
  else if e = 'r' then some '\x0d'
  else if e = 't' then some '\x09'
  else none

/-- Decode the four hexadecimal digits of a `\uXXXX` escape into the
denoted character, returning the unconsumed remainder. -/
def decodeHex4 (r : List Char) : Option (Char × List Char) :=
  r.head?.bind fun h1 =>
  r.tail.head?.bind fun h2 =>
  r.tail.tail.head?.bind fun h3 =>
  r.tail.tail.tail.head?.bind fun h4 =>
  (hexVal h1).bind fun a =>
  (hexVal h2).bind fun b =>
  (hexVal h3).bind fun x =>
  (hexVal h4).map fun d =>
  (Char.ofNat (4096 * a + 256 * b + 16 * x + d), r.tail.tail.tail.tail)

/-- Decode one escape sequence after the backslash, returning the
denoted character and the unconsumed remainder. -/
def decodeEsc (s : List Char) : Option (Char × List Char) :=
  s.head?.bind fun e =>
    if e = 'u' then decodeHex4 s.tail
    else (escLetter e).map fun c2 => (c2, s.tail)

/-- Fueled parser for the body of a JSON string literal after the
opening quote, handling the escape sequences, up to and including the
closing quote. -/
def parseStrBodyF : Nat → List Char → Option (List Char × List Char)
  | 0, _ => none
  | fuel + 1, s =>
    s.head?.bind fun c =>
      if c = '"' then some ([], s.tail)
      else if c = '\\' then
        (decodeEsc s.tail).bind fun p =>
          (parseStrBodyF fuel p.2).map fun q => (p.1 :: q.1, q.2)
      else (parseStrBodyF fuel s.tail).map fun q => (c :: q.1, q.2)

/-- Parse the body of a JSON string literal after the opening quote (the
fuel of `parseStrBodyF` is length-bounded, hence always sufficient). -/
def parseStrBody (s : List Char) : Option (List Char × List Char) :=
  parseStrBodyF (s.length + 1) s

/-- Match the expected literal characters at the front of the input and
return the remainder. -/
def expectChars : List Char → List Char → Option (List Char)
  | [], s => some s
  | c :: cs, s =>
    s.head?.bind fun x => if x = c then expectChars cs s.tail else none

mutual

/-- Parse one JSON value, returning it with the unconsumed remainder. -/
def parseVal : Nat → List Char → Option (JSValue × List Char)
  | 0, _ => none
  | fuel + 1, s =>
    s.head?.bind fun c =>
      if c = 'n' then (expectChars ['u', 'l', 'l'] s.tail).map fun r2 => (.null, r2)
      else if c = 't' then (expectChars ['r', 'u', 'e'] s.tail).map fun r2 => (.bool true, r2)
      else if c = 'f' then (expectChars ['a', 'l', 's', 'e'] s.tail).map fun r2 => (.bool false, r2)
      else if c = '"' then (parseStrBody s.tail).map fun p => (.str (String.mk p.1), p.2)
      else if c = '[' then
        if s.tail.head? = some ']' then some (.arr [], s.tail.tail)
        else (parseElems fuel s.tail).map fun p => (.arr p.1, p.2)
      else if c = '{' then
        if s.tail.head? = some '}' then some (.obj [], s.tail.tail)
        else (parseMembers fuel s.tail).map fun p => (.obj p.1, p.2)
      else if c = '-' then (parseNat s.tail).map fun p => (.num (-(p.1 : Int)), p.2)
      else if c.isDigit then (parseNat s).map fun p => (.num (p.1 : Int), p.2)
      else none

/-- Parse a non-empty comma-separated element list up to and including
the closing bracket. -/
def parseElems : Nat → List Char → Option (List JSValue × List Char)
  | 0, _ => none
  | fuel + 1, s =>
    (parseVal fuel s).bind fun p =>
      if p.2.head? = some ',' then (parseElems fuel p.2.tail).map fun q => (p.1 :: q.1, q.2)
      else if p.2.head? = some ']' then some ([p.1], p.2.tail)
      else none

/-- Parse a non-empty comma-separated member list up to and including
the closing brace. -/
def parseMembers : Nat → List Char → Option (List (String × JSValue) × List Char)
  | 0, _ => none
  | fuel + 1, s =>
    if s.head? = some '"' then
      (parseStrBody s.tail).bind fun kp =>
        if kp.2.head? = some ':' then
          (parseVal fuel kp.2.tail).bind fun vp =>
            if vp.2.head? = some ',' then
              (parseMembers fuel vp.2.tail).map fun q => ((String.mk kp.1, vp.1) :: q.1, q.2)
            else if vp.2.head? = some '}' then some ([(String.mk kp.1, vp.1)], vp.2.tail)
            else none
        else none
    else none

end

/-- Model of `JSON.parse`: parse the whole text as one JSON value;
`none` models a thrown `SyntaxError`. -/
def jsonParse (s : String) : Option JSValue :=
  (parseVal (s.length + 1) s.data).bind fun p => if p.2.isEmpty then some p.1 else none

mutual

/-- Deep absence of `undefined` in a value: the characterization of the
values `JSON.stringify` serializes losslessly. -/
def noUndef : JSValue → Bool
  | .undef => false
  | .null => true
  | .bool _ => true
  | .num _ => true
  | .str _ => true
  | .arr vs => noUndefElems vs
  | .obj ms => noUndefMembers ms

/-- `noUndef` on all elements of an array. -/
def noUndefElems : List JSValue → Bool
  | [] => true
  | v :: vs => noUndef v && noUndefElems vs

/-- `noUndef` on all member values of an object. -/
def noUndefMembers : List (String × JSValue) → Bool
  | [] => true
  | (_, v) :: ms => noUndef v && noUndefMembers ms

end

/-! ## Round trip of the JSON codec -/

theorem hexVal_hexDigitCh : ∀ m, m < 16 → hexVal (hexDigitCh m) = some m := by decide

theorem digitVal_digitCh : ∀ d, d < 10 → digitVal (digitCh d) = d := by decide

theorem isDigit_digitCh : ∀ d, d < 10 → (digitCh d).isDigit = true := by decide

theorem natSer_ne_nil (n : Nat) : natSer n ≠ [] := by
  unfold natSer
  split
  · simp
  · simp only [ne_eq, List.reverse_eq_nil_iff, List.map_eq_nil_iff]
    exact Nat.digits_ne_nil_iff_ne_zero.mpr (by assumption)

theorem natSer_all_digits (n : Nat) : ∀ c ∈ natSer n, c.isDigit = true := by
  intro c hc
  unfold natSer at hc
  split at hc
  · simp at hc
    subst hc
    decide
  · simp only [List.mem_reverse, List.mem_map] at hc
    obtain ⟨d, hd, rfl⟩ := hc
    exact isDigit_digitCh d (Nat.digits_lt_base (by norm_num) hd)

theorem takeWhile_append_all {α : Type} (p : α → Bool) (xs ys : List α)
    (hx : ∀ x ∈ xs, p x = true) (hy : ∀ c, ys.head? = some c → p c = false) :
    (xs ++ ys).takeWhile p = xs ∧ (xs ++ ys).dropWhile p = ys := by
  induction xs with
  | nil =>
    simp only [List.nil_append]
    cases ys with
    | nil => simp
    | cons y ys =>
      have hpy : p y = false := hy y rfl
      simp [List.takeWhile, List.dropWhile, hpy]
  | cons x xs ih =>
    have hpx : p x = true := hx x (List.mem_cons_self x xs)
    have := ih (fun a ha => hx a (List.mem_cons_of_mem x ha))
    simp [List.takeWhile, List.dropWhile, hpx, this.1, this.2]

theorem foldl_digits (L : List Nat) (acc : Nat) (h : ∀ d ∈ L, d < 10) :
    ((L.map digitCh).reverse).foldl (fun a c => 10 * a + digitVal c) acc =
      acc * 10 ^ L.length + Nat.ofDigits 10 L := by
  induction L generalizing acc with
  | nil => simp [Nat.ofDigits]
  | cons d L ih =>
    have hd : d < 10 := h d (List.mem_cons_self d L)
    simp only [List.map_cons, List.reverse_cons, List.foldl_append, List.foldl_cons,
      List.foldl_nil]
    rw [ih acc (fun a ha => h a (List.mem_cons_of_mem d ha))]
    rw [digitVal_digitCh d hd, Nat.ofDigits_cons, List.length_cons, pow_succ]
    ring

theorem parseNat_natSer (n : Nat) (rest : List Char)
    (hrest : ∀ c, rest.head? = some c → c.isDigit = false) :
    parseNat (natSer n ++ rest) = some (n, rest) := by
  obtain ⟨htake, hdrop⟩ :=
    takeWhile_append_all Char.isDigit (natSer n) rest (natSer_all_digits n) hrest
  have hfold : (natSer n).foldl (fun a c => 10 * a + digitVal c) 0 = n := by
    unfold natSer
    split
    · subst n
      decide
    · rw [foldl_digits _ 0 (fun d hd => Nat.digits_lt_base (by norm_num) hd)]
      simp [Nat.ofDigits_digits]
  unfold parseNat
  simp only [htake, hdrop, List.isEmpty_iff]
  rw [if_neg (natSer_ne_nil n), hfold]

theorem serStrBody_length_le (cs : List Char) : cs.length ≤ (serStrBody cs).length := by
  induction cs with
  | nil => simp [serStrBody]
  | cons c cs ih =>
    have hc : 1 ≤ (escapeChar c).length := by
      unfold escapeChar
      split_ifs <;> simp
    simp only [serStrBody, List.length_append, List.length_cons]
    omega

theorem decodeEsc_letter (e c2 : Char) (hu : ¬ e = 'u') (he : escLetter e = some c2)
    (X : List Char) : decodeEsc (e :: X) = some (c2, X) := by
  simp only [decodeEsc, List.head?_cons, Option.some_bind, List.tail_cons]
  rw [if_neg hu, he]
  rfl

theorem decodeEsc_u (h1 h2 h3 h4 : Char) (a b x d : Nat) (ha : hexVal h1 = some a)
    (hb : hexVal h2 = some b) (hx : hexVal h3 = some x) (hd : hexVal h4 = some d)
    (X : List Char) :
    decodeEsc ('u' :: h1 :: h2 :: h3 :: h4 :: X) =
      some (Char.ofNat (4096 * a + 256 * b + 16 * x + d), X) := by
  simp only [decodeEsc, decodeHex4, List.head?_cons, Option.some_bind, List.tail_cons]
  rw [if_pos trivial]
  simp only [List.head?_cons, Option.some_bind, List.tail_cons, ha, hb, hx, hd,
    Option.map_some']

theorem parseStrBodyF_quote (fuel : Nat) (X : List Char) :
    parseStrBodyF (fuel + 1) ('"' :: X) = some ([], X) := by
  simp only [parseStrBodyF, List.head?_cons, Option.some_bind, List.tail_cons]
  rw [if_pos trivial]

theorem parseStrBodyF_esc (fuel : Nat) (E X : List Char) (c2 : Char)
    (hdec : decodeEsc E = some (c2, X)) :
    parseStrBodyF (fuel + 1) ('\\' :: E) =
      (parseStrBodyF fuel X).map fun q => (c2 :: q.1, q.2) := by
  simp only [parseStrBodyF, List.head?_cons, Option.some_bind, List.tail_cons]
  rw [if_pos trivial, hdec]
  rfl

theorem parseStrBodyF_other (fuel : Nat) (c : Char) (h1 : ¬ c = '"') (h2 : ¬ c = '\\')
    (X : List Char) :
    parseStrBodyF (fuel + 1) (c :: X) =
      (parseStrBodyF fuel X).map fun q => (c :: q.1, q.2) := by
  simp only [parseStrBodyF, List.head?_cons, Option.some_bind, List.tail_cons]
  rw [if_neg h1, if_neg h2]

theorem parseStrBodyF_ser (cs : List Char) : ∀ (fuel : Nat), cs.length < fuel →
    ∀ rest : List Char, parseStrBodyF fuel (serStrBody cs ++ '"' :: rest) = some (cs, rest) := by
  induction cs with
  | nil =>
    intro fuel hfuel rest
    obtain ⟨g, rfl⟩ : ∃ g, fuel = g + 1 := ⟨fuel - 1, by omega⟩
    exact parseStrBodyF_quote g rest
  | cons c cs ih =>
    intro fuel hfuel rest
    obtain ⟨g, rfl⟩ : ∃ g, fuel = g + 1 := ⟨fuel - 1, by omega⟩
    have hg : cs.length < g := by
      simp only [List.length_cons] at hfuel
      omega
    show parseStrBodyF (g + 1) ((escapeChar c ++ serStrBody cs) ++ '"' :: rest) = _
    rw [List.append_assoc]
    by_cases h1 : c = '"'
    · subst h1
      rw [show escapeChar '"' = ['\\', '"'] from rfl]
      rw [show (['\\', '"'] : List Char) ++ (serStrBody cs ++ '"' :: rest) =
        '\\' :: '"' :: (serStrBody cs ++ '"' :: rest) from rfl]
      rw [parseStrBodyF_esc g _ _ '"' (decodeEsc_letter '"' '"' (by decide) rfl _), ih g hg rest]
      rfl
    by_cases h2 : c = '\\'
    · subst h2
      rw [show escapeChar '\\' = ['\\', '\\'] from rfl]
      rw [show (['\\', '\\'] : List Char) ++ (serStrBody cs ++ '"' :: rest) =
        '\\' :: '\\' :: (serStrBody cs ++ '"' :: rest) from rfl]
      rw [parseStrBodyF_esc g _ _ '\\' (decodeEsc_letter '\\' '\\' (by decide) rfl _),
        ih g hg rest]
      rfl
    by_cases h3 : c = '\x08'
    · subst h3
      rw [show escapeChar '\x08' = ['\\', 'b'] from rfl]
      rw [show (['\\', 'b'] : List Char) ++ (serStrBody cs ++ '"' :: rest) =
        '\\' :: 'b' :: (serStrBody cs ++ '"' :: rest) from rfl]
      rw [parseStrBodyF_esc g _ _ '\x08' (decodeEsc_letter 'b' '\x08' (by decide) rfl _),
        ih g hg rest]
      rfl
    by_cases h4 : c = '\x09'
    · subst h4
      rw [show escapeChar '\x09' = ['\\', 't'] from rfl]
      rw [show (['\\', 't'] : List Char) ++ (serStrBody cs ++ '"' :: rest) =
        '\\' :: 't' :: (serStrBody cs ++ '"' :: rest) from rfl]
      rw [parseStrBodyF_esc g _ _ '\x09' (decodeEsc_letter 't' '\x09' (by decide) rfl _),
        ih g hg rest]
      rfl
    by_cases h5 : c = '\x0a'
    · subst h5
      rw [show escapeChar '\x0a' = ['\\', 'n'] from rfl]
      rw [show (['\\', 'n'] : List Char) ++ (serStrBody cs ++ '"' :: rest) =
        '\\' :: 'n' :: (serStrBody cs ++ '"' :: rest) from rfl]
      rw [parseStrBodyF_esc g _ _ '\x0a' (decodeEsc_letter 'n' '\x0a' (by decide) rfl _),
        ih g hg rest]
      rfl
    by_cases h6 : c = '\x0c'
    · subst h6
      rw [show escapeChar '\x0c' = ['\\', 'f'] from rfl]
      rw [show (['\\', 'f'] : List Char) ++ (serStrBody cs ++ '"' :: rest) =
        '\\' :: 'f' :: (serStrBody cs ++ '"' :: rest) from rfl]
      rw [parseStrBodyF_esc g _ _ '\x0c' (decodeEsc_letter 'f' '\x0c' (by decide) rfl _),
        ih g hg rest]
      rfl
    by_cases h7 : c = '\x0d'
    · subst h7
      rw [show escapeChar '\x0d' = ['\\', 'r'] from rfl]
      rw [show (['\\', 'r'] : List Char) ++ (serStrBody cs ++ '"' :: rest) =
        '\\' :: 'r' :: (serStrBody cs ++ '"' :: rest) from rfl]
      rw [parseStrBodyF_esc g _ _ '\x0d' (decodeEsc_letter 'r' '\x0d' (by decide) rfl _),
        ih g hg rest]
      rfl
    by_cases h8 : c.toNat < 32
    · have hesc : escapeChar c =
          ['\\', 'u', '0', '0', hexDigitCh (c.toNat / 16), hexDigitCh (c.toNat % 16)] := by
        unfold escapeChar
        rw [if_neg h1, if_neg h2, if_neg h3, if_neg h4, if_neg h5, if_neg h6, if_neg h7,
          if_pos h8]
      rw [hesc]
      rw [show (['\\', 'u', '0', '0', hexDigitCh (c.toNat / 16), hexDigitCh (c.toNat % 16)] :
          List Char) ++ (serStrBody cs ++ '"' :: rest) =
        '\\' :: 'u' :: '0' :: '0' :: hexDigitCh (c.toNat / 16) :: hexDigitCh (c.toNat % 16) ::
          (serStrBody cs ++ '"' :: rest) from rfl]
      rw [parseStrBodyF_esc g _ _ (Char.ofNat (4096 * 0 + 256 * 0 + 16 * (c.toNat / 16) +
          c.toNat % 16))
        (decodeEsc_u '0' '0' (hexDigitCh (c.toNat / 16)) (hexDigitCh (c.toNat % 16)) 0 0
          (c.toNat / 16) (c.toNat % 16) rfl rfl (hexVal_hexDigitCh _ (by omega))
          (hexVal_hexDigitCh _ (by omega)) _),
        ih g hg rest]
      have harith : 4096 * 0 + 256 * 0 + 16 * (c.toNat / 16) + c.toNat % 16 = c.toNat := by
        omega
      rw [Option.map_some', harith, Char.ofNat_toNat]
    · have hesc : escapeChar c = [c] := by
        unfold escapeChar
        rw [if_neg h1, if_neg h2, if_neg h3, if_neg h4, if_neg h5, if_neg h6, if_neg h7,
          if_neg h8]
      rw [hesc]
      rw [show ([c] : List Char) ++ (serStrBody cs ++ '"' :: rest) =
        c :: (serStrBody cs ++ '"' :: rest) from rfl]
      rw [parseStrBodyF_other g c h1 h2, ih g hg rest]
      rfl

theorem parseStrBody_ser (cs : List Char) (rest : List Char) :
    parseStrBody (serStrBody cs ++ '"' :: rest) = some (cs, rest) := by
  unfold parseStrBody
  apply parseStrBodyF_ser
  have := serStrBody_length_le cs
  simp only [List.length_append, List.length_cons]
  omega

theorem expectChars_append (cs : List Char) : ∀ rest : List Char,
    expectChars cs (cs ++ rest) = some rest := by
  induction cs with
  | nil => intro rest; rfl
  | cons c cs ih =>
    intro rest
    simp only [expectChars, List.cons_append, List.head?_cons, Option.some_bind,
      List.tail_cons]
    rw [if_pos trivial]
    exact ih rest

theorem serStr_length_ge (s : String) : 2 ≤ (serStr s).length := by
  simp only [serStr, List.length_cons, List.length_append, List.length_singleton]
  omega

theorem serVal_length_pos (v : JSValue) : 1 ≤ (serVal v).length := by
  cases v with
  | undef => decide
  | null => decide
  | bool b => cases b <;> decide
  | num n =>
    show 1 ≤ (intSer n).length
    unfold intSer
    split
    · simp
    · have := natSer_ne_nil n.natAbs
      cases h : natSer n.natAbs with
      | nil => exact absurd h this
      | cons a l => simp [h]
  | str s =>
    have := serStr_length_ge s
    show 1 ≤ (serStr s).length
    omega
  | arr vs => cases vs <;> simp [serVal]
  | obj ms => simp [serVal]

theorem isDigit_ne_key (c : Char) (h : c.isDigit = true) :
    ¬ c = 'n' ∧ ¬ c = 't' ∧ ¬ c = 'f' ∧ ¬ c = '"' ∧ ¬ c = '[' ∧ ¬ c = '{' ∧ ¬ c = '-' ∧
      ¬ c = ']' ∧ ¬ c = '}' ∧ ¬ c = ',' := by
  refine ⟨?_, ?_, ?_, ?_, ?_, ?_, ?_, ?_, ?_, ?_⟩ <;> rintro rfl <;> exact absurd h (by decide)

/-- Every serialized value starts with a character that is not a closing
delimiter. -/
theorem serVal_head_shape (v : JSValue) :
    ∃ c cs, serVal v = c :: cs ∧ ¬ c = ']' ∧ ¬ c = '}' := by
  cases v with
  | undef => exact ⟨'n', _, rfl, by decide, by decide⟩
  | null => exact ⟨'n', _, rfl, by decide, by decide⟩
  | bool b =>
    cases b
    · exact ⟨'f', _, rfl, by decide, by decide⟩
    · exact ⟨'t', _, rfl, by decide, by decide⟩
  | num n =>
    show ∃ c cs, intSer n = c :: cs ∧ ¬ c = ']' ∧ ¬ c = '}'
    unfold intSer
    split
    · exact ⟨'-', _, rfl, by decide, by decide⟩
    · cases h : natSer n.natAbs with
      | nil => exact absurd h (natSer_ne_nil n.natAbs)
      | cons a l =>
        have ha : a.isDigit = true := natSer_all_digits n.natAbs a (h ▸ List.mem_cons_self a l)
        obtain ⟨-, -, -, -, -, -, -, h1, h2, -⟩ := isDigit_ne_key a ha
        exact ⟨a, l, rfl, h1, h2⟩
  | str s => exact ⟨'"', _, rfl, by decide, by decide⟩
  | arr vs => cases vs <;> exact ⟨'[', _, rfl, by decide, by decide⟩
  | obj ms => exact ⟨'{', _, rfl, by decide, by decide⟩

/-- The characters that may legally follow a complete serialized value
in the recursive positions of the grammar (or the end of input). -/
def restOK : List Char → Bool
  | [] => true
  | c :: _ => c == ',' || c == ']' || c == '}'

theorem restOK_not_digit (rest : List Char) (h : restOK rest = true) :
    ∀ c, rest.head? = some c → c.isDigit = false := by
  intro c hc
  cases rest with
  | nil => exact absurd hc (by simp)
  | cons r0 rs =>
    simp only [List.head?_cons, Option.some.injEq] at hc
    subst hc
    simp only [restOK, Bool.or_eq_true, beq_iff_eq] at h
    rcases h with (rfl | rfl) | rfl <;> decide

/-- One-step unfolding of `parseVal` at positive fuel on a non-empty
input. -/
theorem parseVal_cons (g : Nat) (c : Char) (X : List Char) :
    parseVal (g + 1) (c :: X) =
      (if c = 'n' then (expectChars ['u', 'l', 'l'] X).map fun r2 => (.null, r2)
       else if c = 't' then (expectChars ['r', 'u', 'e'] X).map fun r2 => (.bool true, r2)
       else if c = 'f' then
         (expectChars ['a', 'l', 's', 'e'] X).map fun r2 => (.bool false, r2)
       else if c = '"' then (parseStrBody X).map fun p => (.str (String.mk p.1), p.2)
       else if c = '[' then
         if X.head? = some ']' then some (.arr [], X.tail)
         else (parseElems g X).map fun p => (.arr p.1, p.2)
       else if c = '{' then
         if X.head? = some '}' then some (.obj [], X.tail)
         else (parseMembers g X).map fun p => (.obj p.1, p.2)
       else if c = '-' then (parseNat X).map fun p => (.num (-(p.1 : Int)), p.2)
       else if c.isDigit then (parseNat (c :: X)).map fun p => (.num (p.1 : Int), p.2)
       else none) := by
  simp only [parseVal, List.head?_cons, Option.some_bind, List.tail_cons]

/-- The round-trip property of one value: parsing its serialization (at
sufficient fuel, before any legal continuation) succeeds and returns the
value itself. -/
def SerParses (v : JSValue) : Prop :=
  ∀ fuel, (serVal v).length ≤ fuel → ∀ rest, restOK rest = true →
    parseVal fuel (serVal v ++ rest) = some (v, rest)

theorem noUndefElems_mem (vs : List JSValue) (h : noUndefElems vs = true) :
    ∀ w ∈ vs, noUndef w = true := by
  induction vs with
  | nil => intro w hw; exact absurd hw (by simp)
  | cons v vs ih =>
    intro w hw
    simp only [noUndefElems, Bool.and_eq_true] at h
    rcases List.mem_cons.mp hw with rfl | hw
    · exact h.1
    · exact ih h.2 w hw

theorem noUndefMembers_mem (ms : List (String × JSValue)) (h : noUndefMembers ms = true) :
    ∀ m ∈ ms, noUndef m.2 = true := by
  induction ms with
  | nil => intro m hm; exact absurd hm (by simp)
  | cons m0 ms ih =>
    intro m hm
    obtain ⟨k, v⟩ := m0
    simp only [noUndefMembers, Bool.and_eq_true] at h
    rcases List.mem_cons.mp hm with rfl | hm
    · exact h.1
    · exact ih h.2 m hm

theorem ne_undef_of_noUndef (v : JSValue) (h : noUndef v = true) : ¬ v = .undef := by
  rintro rfl
  exact absurd h (by decide)

theorem elems_ser (vs : List JSValue) : ∀ (v : JSValue), (∀ w ∈ v :: vs, SerParses w) →
    ∀ fuel, (serVal v).length + (serElemsPre vs).length + 1 ≤ fuel →
    ∀ rest, restOK rest = true →
    parseElems fuel (serVal v ++ (serElemsPre vs ++ ']' :: rest)) = some (v :: vs, rest) := by
  induction vs with
  | nil =>
    intro v hRT fuel hfuel rest hrest
    obtain ⟨g, rfl⟩ : ∃ g, fuel = g + 1 := ⟨fuel - 1, by omega⟩
    have hle : (serVal v).length ≤ g := by
      simp only [serElemsPre, List.length_nil] at hfuel
      omega
    have hv := hRT v (List.mem_cons_self v []) g hle (']' :: rest) rfl
    simp only [serElemsPre, List.nil_append, parseElems]
    rw [hv]
    simp only [Option.some_bind, List.head?_cons, List.tail_cons]
    rw [if_neg (by decide), if_pos trivial]
  | cons v2 vs ih =>
    intro v hRT fuel hfuel rest hrest
    obtain ⟨g, rfl⟩ : ∃ g, fuel = g + 1 := ⟨fuel - 1, by omega⟩
    have hlen : (serElemsPre (v2 :: vs)).length =
        1 + (serVal v2).length + (serElemsPre vs).length := by
      simp only [serElemsPre, List.length_cons, List.length_append]
      omega
    have hpos2 := serVal_length_pos v2
    have hle : (serVal v).length ≤ g := by omega
    have hv := hRT v (List.mem_cons_self v (v2 :: vs)) g hle
      (',' :: (serVal v2 ++ (serElemsPre vs ++ ']' :: rest))) rfl
    have hshape : serVal v ++ (serElemsPre (v2 :: vs) ++ ']' :: rest) =
        serVal v ++ (',' :: (serVal v2 ++ (serElemsPre vs ++ ']' :: rest))) := by
      simp only [serElemsPre, List.cons_append, List.append_assoc]
    rw [hshape]
    simp only [parseElems]
    rw [hv]
    simp only [Option.some_bind, List.head?_cons, List.tail_cons]
    rw [if_pos trivial]
    rw [ih v2 (fun w hw => hRT w (List.mem_cons_of_mem v hw)) g (by omega) rest hrest]
    rfl

theorem members_ser (ms : List (String × JSValue)) : ∀ (k : String) (v : JSValue),
    (∀ m ∈ (k, v) :: ms, SerParses m.2) → noUndefMembers ms = true →
    ∀ fuel,
      (serStr k).length + (serVal v).length + (serMembersPre ms).length + 2 ≤ fuel →
    ∀ rest, restOK rest = true →
    parseMembers fuel (serStr k ++ ':' :: (serVal v ++ (serMembersPre ms ++ '}' :: rest))) =
      some ((k, v) :: ms, rest) := by
  induction ms with
  | nil =>
    intro k v hRT hnu fuel hfuel rest hrest
    obtain ⟨g, rfl⟩ : ∃ g, fuel = g + 1 := ⟨fuel - 1, by omega⟩
    have hk2 := serStr_length_ge k
    have hle : (serVal v).length ≤ g := by
      simp only [serMembersPre, List.length_nil] at hfuel
      omega
    have hv := hRT (k, v) (List.mem_cons_self _ []) g hle ('}' :: rest) rfl
    have hshape : serStr k ++ ':' :: (serVal v ++ (serMembersPre [] ++ '}' :: rest)) =
        '"' :: (serStrBody k.data ++ '"' :: (':' :: (serVal v ++ '}' :: rest))) := by
      simp only [serStr, serMembersPre, List.nil_append, List.cons_append,
        List.append_assoc, List.singleton_append]
    rw [hshape]
    simp only [parseMembers, List.head?_cons, List.tail_cons]
    rw [if_pos trivial, parseStrBody_ser]
    simp only [Option.some_bind, List.head?_cons, List.tail_cons]
    rw [if_pos trivial]
    show (parseVal g (serVal v ++ '}' :: rest)).bind _ = _
    rw [hv]
    simp only [Option.some_bind, List.head?_cons, List.tail_cons]
    rw [if_pos trivial]
    rfl
  | cons m2 ms ih =>
    intro k v hRT hnu fuel hfuel rest hrest
    obtain ⟨k2, v2⟩ := m2
    obtain ⟨g, rfl⟩ : ∃ g, fuel = g + 1 := ⟨fuel - 1, by omega⟩
    simp only [noUndefMembers, Bool.and_eq_true] at hnu
    have hv2ne : ¬ v2 = .undef := ne_undef_of_noUndef v2 hnu.1
    have hk2 := serStr_length_ge k
    have hk22 := serStr_length_ge k2
    have hpos2 := serVal_length_pos v2
    have hpos := serVal_length_pos v
    have hlen : (serMembersPre ((k2, v2) :: ms)).length =
        2 + (serStr k2).length + (serVal v2).length + (serMembersPre ms).length := by
      simp only [serMembersPre]
      rw [if_neg hv2ne]
      simp only [List.length_cons, List.length_append]
      omega
    have hle : (serVal v).length ≤ g := by omega
    have hv := hRT (k, v) (List.mem_cons_self _ _) g hle
      (',' :: (serStr k2 ++ ':' :: (serVal v2 ++ (serMembersPre ms ++ '}' :: rest)))) rfl
    have hshape : serStr k ++ ':' ::
          (serVal v ++ (serMembersPre ((k2, v2) :: ms) ++ '}' :: rest)) =
        '"' :: (serStrBody k.data ++ '"' :: (':' :: (serVal v ++
          (',' :: (serStr k2 ++ ':' :: (serVal v2 ++ (serMembersPre ms ++ '}' :: rest))))))) := by
      simp only [serMembersPre]
      rw [if_neg hv2ne]
      simp only [serStr, List.cons_append, List.append_assoc, List.singleton_append,
        List.nil_append]
    rw [hshape]
    simp only [parseMembers, List.head?_cons, List.tail_cons]
    rw [if_pos trivial, parseStrBody_ser]
    simp only [Option.some_bind, List.head?_cons, List.tail_cons]
    rw [if_pos trivial]
    show (parseVal g (serVal v ++ _)).bind _ = _
    rw [hv]
    simp only [Option.some_bind, List.head?_cons, List.tail_cons]
    rw [if_pos trivial]
    rw [ih k2 v2 (fun m hm => hRT m (List.mem_cons_of_mem _ hm)) hnu.2 g (by omega) rest hrest]
    rfl

theorem serParses_bounded : ∀ N : Nat, ∀ v : JSValue, sizeOf v ≤ N → noUndef v = true →
    SerParses v := by
  intro N
  induction N using Nat.strong_induction_on with
  | _ N IH =>
  intro v hN hnu fuel hfuel rest hrest
  have hfpos := serVal_length_pos v
  obtain ⟨g, rfl⟩ : ∃ g, fuel = g + 1 := ⟨fuel - 1, by omega⟩
  cases v with
  | undef => exact absurd hnu (by decide)
  | null =>
    rw [show serVal .null ++ rest = 'n' :: ('u' :: 'l' :: 'l' :: rest) from rfl, parseVal_cons]
    rw [if_pos rfl]
    rw [show ('u' :: 'l' :: 'l' :: rest) = ['u', 'l', 'l'] ++ rest from rfl,
      expectChars_append]
    rfl
  | bool b =>
    cases b with
    | true =>
      rw [show serVal (.bool true) ++ rest = 't' :: ('r' :: 'u' :: 'e' :: rest) from rfl,
        parseVal_cons]
      rw [if_neg (by decide), if_pos rfl]
      rw [show ('r' :: 'u' :: 'e' :: rest) = ['r', 'u', 'e'] ++ rest from rfl,
        expectChars_append]
      rfl
    | false =>
      rw [show serVal (.bool false) ++ rest =
        'f' :: ('a' :: 'l' :: 's' :: 'e' :: rest) from rfl, parseVal_cons]
      rw [if_neg (by decide), if_neg (by decide), if_pos rfl]
      rw [show ('a' :: 'l' :: 's' :: 'e' :: rest) = ['a', 'l', 's', 'e'] ++ rest from rfl,
        expectChars_append]
      rfl
  | num n =>
    have hrd := restOK_not_digit rest hrest
    by_cases hneg : n < 0
    · have hser : serVal (.num n) = '-' :: natSer n.natAbs := by
        show intSer n = _
        unfold intSer
        rw [if_pos hneg]
      rw [hser, List.cons_append, parseVal_cons]
      rw [if_neg (by decide), if_neg (by decide), if_neg (by decide), if_neg (by decide),
        if_neg (by decide), if_neg (by decide), if_pos rfl]
      rw [parseNat_natSer n.natAbs rest hrd, Option.map_some']
      have heq : -((n.natAbs : Nat) : Int) = n := by omega
      rw [heq]
    · have hser : serVal (.num n) = natSer n.natAbs := by
        show intSer n = _
        unfold intSer
        rw [if_neg hneg]
      cases h : natSer n.natAbs with
      | nil => exact absurd h (natSer_ne_nil n.natAbs)
      | cons c cs2 =>
        have hc : c.isDigit = true := natSer_all_digits n.natAbs c (h ▸ List.mem_cons_self c cs2)
        obtain ⟨k1, k2, k3, k4, k5, k6, k7, -, -, -⟩ := isDigit_ne_key c hc
        rw [hser, h, List.cons_append, parseVal_cons]
        rw [if_neg k1, if_neg k2, if_neg k3, if_neg k4, if_neg k5, if_neg k6, if_neg k7,
          if_pos hc]
        rw [show c :: (cs2 ++ rest) = (c :: cs2) ++ rest from rfl, ← h,
          parseNat_natSer n.natAbs rest hrd, Option.map_some']
        have heq : ((n.natAbs : Nat) : Int) = n := by omega
        rw [heq]
  | str s =>
    have hshape : serVal (.str s) ++ rest = '"' :: (serStrBody s.data ++ '"' :: rest) := by
      show serStr s ++ rest = _
      simp only [serStr, List.cons_append, List.append_assoc, List.singleton_append,
        List.nil_append]
    rw [hshape, parseVal_cons]
    rw [if_neg (by decide), if_neg (by decide), if_neg (by decide), if_pos rfl]
    rw [parseStrBody_ser, Option.map_some']
  | arr vs =>
    cases vs with
    | nil =>
      rw [show serVal (.arr []) ++ rest = '[' :: (']' :: rest) from rfl, parseVal_cons]
      rw [if_neg (by decide), if_neg (by decide), if_neg (by decide), if_neg (by decide),
        if_pos rfl]
      rw [if_pos (show (']' :: rest).head? = some ']' from rfl)]
      rfl
    | cons v vs2 =>
      simp only [noUndef] at hnu
      have hRTall : ∀ w ∈ v :: vs2, SerParses w := by
        intro w hw
        have hsz : sizeOf w < sizeOf (JSValue.arr (v :: vs2)) := by
          have := List.sizeOf_lt_of_mem hw
          simp only [JSValue.arr.sizeOf_spec]
          omega
        exact IH (sizeOf w) (by omega) w le_rfl (noUndefElems_mem _ hnu w hw)
      have hlen : (serVal (.arr (v :: vs2))).length =
          2 + (serVal v).length + (serElemsPre vs2).length := by
        rw [serVal]
        simp only [List.length_cons, List.length_append, List.length_nil]
        omega
      have harith : (serVal v).length + (serElemsPre vs2).length + 1 ≤ g := by
        rw [hlen] at hfuel
        omega
      have hshape : serVal (.arr (v :: vs2)) ++ rest =
          '[' :: (serVal v ++ (serElemsPre vs2 ++ ']' :: rest)) := by
        simp only [serVal, List.cons_append, List.append_assoc, List.singleton_append,
          List.nil_append]
      rw [hshape, parseVal_cons]
      rw [if_neg (by decide), if_neg (by decide), if_neg (by decide), if_neg (by decide),
        if_pos rfl]
      obtain ⟨c0, cs0, hc0, hne1, hne2⟩ := serVal_head_shape v
      rw [if_neg (by
        rw [hc0, List.cons_append, List.head?_cons]
        intro hcc
        exact hne1 (Option.some.inj hcc))]
      rw [elems_ser vs2 v hRTall g harith rest hrest, Option.map_some']
  | obj ms =>
    cases ms with
    | nil =>
      rw [show serVal (.obj []) ++ rest = '{' :: ('}' :: rest) from rfl, parseVal_cons]
      rw [if_neg (by decide), if_neg (by decide), if_neg (by decide), if_neg (by decide),
        if_neg (by decide), if_pos rfl]
      rw [if_pos (show ('}' :: rest).head? = some '}' from rfl)]
      rfl
    | cons m ms2 =>
      obtain ⟨k, v⟩ := m
      simp only [noUndef, noUndefMembers, Bool.and_eq_true] at hnu
      have hvne : ¬ v = .undef := ne_undef_of_noUndef v hnu.1
      have hRTall : ∀ m ∈ (k, v) :: ms2, SerParses m.2 := by
        intro m hm
        obtain ⟨km, vm⟩ := m
        have hsz : sizeOf (JSValue.obj ((k, v) :: ms2)) = 1 + sizeOf ((k, v) :: ms2) := by
          simp
        have h1 := List.sizeOf_lt_of_mem hm
        have h2 : sizeOf ((km, vm) : String × JSValue) = 1 + sizeOf km + sizeOf vm := by
          simp
        have hnm : noUndef vm = true := by
          have := noUndefMembers_mem ((k, v) :: ms2) (by
            simp only [noUndefMembers, Bool.and_eq_true]
            exact hnu) (km, vm) hm
          exact this
        exact IH (sizeOf vm) (by omega) vm le_rfl hnm
      have hdrop : dropLeadComma (serMembersPre ((k, v) :: ms2)) =
          (serStr k ++ ':' :: serVal v) ++ serMembersPre ms2 := by
        simp only [serMembersPre]
        rw [if_neg hvne]
        rfl
      have hlen : (serVal (.obj ((k, v) :: ms2))).length =
          3 + (serStr k).length + (serVal v).length + (serMembersPre ms2).length := by
        rw [serVal, hdrop]
        simp only [List.length_cons, List.length_append, List.length_nil]
        omega
      have harith : (serStr k).length + (serVal v).length + (serMembersPre ms2).length + 2 ≤
          g := by
        rw [hlen] at hfuel
        omega
      have hshape : serVal (.obj ((k, v) :: ms2)) ++ rest =
          '{' :: (serStr k ++ ':' :: (serVal v ++ (serMembersPre ms2 ++ '}' :: rest))) := by
        simp only [serVal, hdrop, List.cons_append, List.append_assoc, List.singleton_append,
          List.nil_append]
      rw [hshape, parseVal_cons]
      rw [if_neg (by decide), if_neg (by decide), if_neg (by decide), if_neg (by decide),
        if_neg (by decide), if_pos rfl]
      rw [if_neg (by
        simp only [serStr, List.cons_append, List.head?_cons]
        intro hcc
        exact absurd (Option.some.inj hcc) (by decide))]
      rw [members_ser ms2 k v hRTall hnu.2 g harith rest hrest, Option.map_some']

/-- Full codec round trip: parsing the serialization of any
`undefined`-free value recovers the value (model counterpart of
`JSON.parse(JSON.stringify(v))`). -/
theorem jsonParse_serVal (v : JSValue) (hnu : noUndef v = true) :
    jsonParse (String.mk (serVal v)) = some v := by
  unfold jsonParse
  have hdata : (String.mk (serVal v)).data = serVal v := rfl
  have hlenstr : (String.mk (serVal v)).length = (serVal v).length := rfl
  rw [hdata, hlenstr]
  have h := serParses_bounded (sizeOf v) v le_rfl hnu ((serVal v).length + 1) (by omega)
    [] rfl
  rw [List.append_nil] at h
  rw [h]
  rfl

/-! ## Key-value association lists

The physical stores of both engines (the `indexedDB` object store and the
native `localStorage`) are modelled as association lists with unique
keys, in insertion order.  `kvPut` models the replace-or-keep-position
update both engines perform on an existing key. -/

/-- Look up a key in an association list (the engines' `get`). -/
def kvLookup {α : Type} : List (String × α) → String → Option α
  | [], _ => none
  | p :: rest, k => if p.1 == k then some p.2 else kvLookup rest k

/-- Replace the value under an existing key in place, or append a new
entry (the engines' unconditional write: `IDBObjectStore.put` /
`localStorage.setItem`). -/
def kvPut {α : Type} : List (String × α) → String → α → List (String × α)
  | [], k, v => [(k, v)]
  | p :: rest, k, v => if p.1 == k then (k, v) :: rest else p :: kvPut rest k v

/-- Delete a key (the engines' `delete` / `removeItem`); succeeds whether
or not the key was present. -/
def kvRemove {α : Type} (m : List (String × α)) (k : String) : List (String × α) :=
  m.filter (fun p => p.1 != k)

/-- `IDBObjectStore.add`: fails with a `ConstraintError` when the key
already exists, otherwise appends the new entry. -/
def kvAdd {α : Type} (m : List (String × α)) (k : String) (v : α) :
    Except String (List (String × α)) :=
  if (kvLookup m k).isSome then .error "ConstraintError" else .ok (m ++ [(k, v)])

/-- The error channel of an operation result (an errored observable in
the sources). -/
inductive StorageError where
  | connection (msg : String)
  | transaction (msg : String)
  | deserialization (msg : String)
  | validation (msg : String)
  | jsType (msg : String)
deriving DecidableEq

/-! ## `LocalStorageDatabase` (`localstorage-database.ts`)

The synchronous fallback backend over native `localStorage`.  Each
method returns immediately; `Except.error` models a returned error
observable (`observableThrow`), `Except.ok` a value observable.  Write
operations additionally return the updated `localStorage` contents
(state passing for the mutation of the shared browser store). -/

/-- The native `localStorage` contents: keys to stored text. -/
structure LSState where
  store : List (String × String)
deriving DecidableEq

namespace LS

/-- The `try`/`catch` around `JSON.parse` in `getItem`: a parse failure
becomes an error observable with the fixed message
`Invalid data in localStorage.`. -/
def parseStored (text : String) : Except StorageError JSValue :=
  match jsonParse text with
  | some v => .ok v
  | none => .error (.deserialization "Invalid data in localStorage.")

/-- `LocalStorageDatabase.getItem`: read the raw text (`null` when the
key is absent), parse it, and return the parsed data (or `null` for an
absent key). -/
def getItem (st : LSState) (key : String) : Except StorageError JSValue :=
  match kvLookup st.store key with
  | none => .ok .null
  | some text => parseStored text

/-- `LocalStorageDatabase.setItem`: store `JSON.stringify(data)` under
the key (no guard against `null`/`undefined` in this class) and emit
`true`. -/
def setItem (st : LSState) (key : String) (data : JSValue) :
    Except StorageError Bool × LSState :=
  (.ok true, ⟨kvPut st.store key (jsonStringifyForStorage data)⟩)

/-- `LocalStorageDatabase.removeItem`: delete the key and emit `true`. -/
def removeItem (st : LSState) (key : String) : Except StorageError Bool × LSState :=
  (.ok true, ⟨kvRemove st.store key⟩)

/-- `LocalStorageDatabase.clear`: clear the store and emit `true`. -/
def clear (st : LSState) : Except StorageError Bool × LSState :=
  (.ok true, ⟨[]⟩)

/-- Modelled from the spec: the `keys` operation of the localStorage
fallback backend is missing from the source files (only the older
`LocalStorageDatabase` without enumeration is present); per the spec the
fallback wraps the synchronous engine behind the same contract, so
`keys` materializes the complete set of current keys and always
succeeds. -/
def keys (st : LSState) : Except StorageError (List String) :=
  .ok (st.store.map (fun p => p.1))

/-- Modelled from the spec: the `has` operation of the localStorage
fallback backend is missing from the source files; per the spec it is a
boolean existence check over the synchronous engine and always
succeeds. -/
def has (st : LSState) (key : String) : Except StorageError Bool :=
  .ok (kvLookup st.store key).isSome

/-- Modelled from the spec: the `size` operation of the localStorage
fallback backend is missing from the source files; per the spec it
reports the current entry count and always succeeds. -/
def size (st : LSState) : Except StorageError Nat :=
  .ok st.store.length

end LS

/-! ## `IndexedDBDatabase` — current version (`indexeddb-database.ts`)

The primary backend.  The instance state holds the object-store contents
and the `fallback` reference (`null` until `setFallback` runs).  Each
operation is the resolution of its transaction on a connected instance:
`Except.ok` models the success event of the request, carrying the mapped
result; engine-level failure events are external and not produced by
this deterministic model, except where the code itself constructs them.
The `getKey`-capable (`indexedDB` v2) engine variant is modelled. -/

/-- Instance state of an `IndexedDBDatabase`. -/
structure IdbState where
  idb : List (String × JSValue)
  fallback : Option LSState
deriving DecidableEq

/-- Outcome of the `indexedDB.open` sequence started by the
constructor. -/
inductive ConnectOutcome where
  | openThrows
  | openError
  | openSuccess (contents : List (String × JSValue))
deriving DecidableEq

namespace Idb

/-- `IndexedDBDatabase.connect` (current version): a synchronous throw
of `indexedDB.open` or a terminal error event of the open request both
run `setFallback`, which installs a `LocalStorageDatabase` over the
ambient `localStorage` contents; on success the connection is cached and
the (possibly pre-existing) object store is used. -/
def connect (localStorageContents : List (String × String)) :
    ConnectOutcome → IdbState
  | .openThrows => { idb := [], fallback := some ⟨localStorageContents⟩ }
  | .openError => { idb := [], fallback := some ⟨localStorageContents⟩ }
  | .openSuccess m => { idb := m, fallback := none }

/-- The success-event mapping of the current `getItem`: a non-`null`
object carrying a non-`null`, non-`undefined` `value` field is
unwrapped; any other non-`null`, non-`undefined` result is returned
as-is; otherwise `null` is returned. -/
def unwrap (result : JSValue) : JSValue :=
  if ¬ result = .undef ∧ ¬ result = .null ∧ jsTypeof result = "object" ∧
      hasProp result "value" = true ∧ ¬ getProp result "value" = .undef ∧
      ¬ getProp result "value" = .null
  then getProp result "value"
  else if ¬ result = .undef ∧ ¬ result = .null then result
  else .null

/-- `IndexedDBDatabase.getItem`: delegate to the fallback if set;
otherwise `store.get(key)` (whose result is `undefined` when the key is
absent) followed by the `unwrap` mapping. -/
def getItem (st : IdbState) (key : String) : Except StorageError JSValue :=
  match st.fallback with
  | some ls => LS.getItem ls key
  | none => .ok (unwrap ((kvLookup st.idb key).getD .undef))

/-- `IndexedDBDatabase.setItem`: delegate to the fallback if set;
storing `undefined` or `null` is a successful no-op; otherwise check key
existence with `getKey` and `add` the wrapped `{ value: data }` record
for a new key or `put` it for an existing one. -/
def setItem (st : IdbState) (key : String) (data : JSValue) :
    Except StorageError Bool × IdbState :=
  match st.fallback with
  | some ls =>
    let r := LS.setItem ls key data
    (r.1, { st with fallback := some r.2 })
  | none =>
    if data = .undef ∨ data = .null then (.ok true, st)
    else
      match kvLookup st.idb key with
      | none =>
        match kvAdd st.idb key (.obj [("value", data)]) with
        | .ok m => (.ok true, { st with idb := m })
        | .error e => (.error (.transaction e), st)
      | some _ => (.ok true, { st with idb := kvPut st.idb key (.obj [("value", data)]) })

/-- `IndexedDBDatabase.removeItem`: delegate to the fallback if set;
otherwise `store.delete(key)` unconditionally and map to `true`. -/
def removeItem (st : IdbState) (key : String) : Except StorageError Bool × IdbState :=
  match st.fallback with
  | some ls =>
    let r := LS.removeItem ls key
    (r.1, { st with fallback := some r.2 })
  | none => (.ok true, { st with idb := kvRemove st.idb key })

/-- `IndexedDBDatabase.clear`: delegate to the fallback if set;
otherwise `store.clear()` and map to `true`. -/
def clear (st : IdbState) : Except StorageError Bool × IdbState :=
  match st.fallback with
  | some ls =>
    let r := LS.clear ls
    (r.1, { st with fallback := some r.2 })
  | none => (.ok true, { st with idb := [] })

/-- `IndexedDBDatabase.keys`: delegate to the fallback if set; otherwise
`getAllKeys` (or the equivalent cursor walk) materializing all current
keys. -/
def keys (st : IdbState) : Except StorageError (List String) :=
  match st.fallback with
  | some ls => LS.keys ls
  | none => .ok (st.idb.map (fun p => p.1))

/-- `IndexedDBDatabase.has`: delegate to the fallback if set; otherwise
`getKey` and test the result against `undefined`. -/
def has (st : IdbState) (key : String) : Except StorageError Bool :=
  match st.fallback with
  | some ls => LS.has ls key
  | none => .ok (kvLookup st.idb key).isSome

/-- `IndexedDBDatabase.size`: delegate to the fallback if set; otherwise
`store.count()` in a read-only transaction. -/
def size (st : IdbState) : Except StorageError Nat :=
  match st.fallback with
  | some ls => LS.size ls
  | none => .ok st.idb.length

end Idb

/-- One contract operation issued against a backend instance. -/
inductive DBOp where
  | get (key : String)
  | set (key : String) (data : JSValue)
  | remove (key : String)
  | clear
  | keys
  | has (key : String)
  | size

/-- The state effect of one contract operation on an `IndexedDBDatabase`
instance (read operations leave the state unchanged). -/
def Idb.applyOp : DBOp → IdbState → IdbState
  | .get _, st => st
  | .set k v, st => (Idb.setItem st k v).2
  | .remove k, st => (Idb.removeItem st k).2
  | .clear, st => (Idb.clear st).2
  | .keys, st => st
  | .has _, st => st
  | .size, st => st

/-- Reachability between instance states under any sequence of contract
operations. -/
inductive Reachable : IdbState → IdbState → Prop where
  | refl (st : IdbState) : Reachable st st
  | step (st st' : IdbState) (op : DBOp) : Reachable st st' →
      Reachable st (Idb.applyOp op st')

/-! ## `IndexedDBDatabase` — older version (second source file)

This variant has no fallback: a failing open sequence propagates the
connection error into the connection `ReplaySubject`
(`this.database.error(...)`), so every subsequent operation's
transaction observable errors with it. -/

/-- Instance state of the older `IndexedDBDatabase`: the connection
subject either holds an error message or is connected to the object
store. -/
structure OldState where
  conn : Option String
  idb : List (String × JSValue)
deriving DecidableEq

/-- Outcome of the older variant's open sequence. -/
inductive OldConnectOutcome where
  | success (contents : List (String × JSValue))
  | errorEvent (msg : String)
deriving DecidableEq

namespace OldIdb

/-- Older `IndexedDBDatabase.connect`: on the error event the connection
subject is errored with the wrapped message; on success the connection
is cached. -/
def connect : OldConnectOutcome → OldState
  | .success m => { conn := none, idb := m }
  | .errorEvent msg =>
    { conn := some ("IndexedDB connection issue : " ++ msg ++ "."), idb := [] }

/-- The success-event mapping of the older `getItem`:
`result && (dataPath in result) ? result[dataPath] : null`.  A falsy
result yields `null`; the `in` operator on a truthy primitive throws a
`TypeError` (delivered as an error through the observable); a truthy
object yields its `value` field when present, `null` otherwise (an array
has no `value` property). -/
def readMap (result : JSValue) : Except StorageError JSValue :=
  if jsTruthy result then
    match result with
    | .obj ms =>
      .ok (if ms.any (fun m => m.1 == "value") then getProp (.obj ms) "value" else .null)
    | .arr _ => .ok .null
    | _ => .error (.jsType "TypeError: cannot use in operator on a primitive")
  else .ok .null

/-- Older `IndexedDBDatabase.getItem`: an errored connection subject
propagates the connection error; otherwise `store.get(key)` and
`readMap`. -/
def getItem (st : OldState) (key : String) : Except StorageError JSValue :=
  match st.conn with
  | some e => .error (.connection e)
  | none => readMap ((kvLookup st.idb key).getD .undef)

/-- The continuation of the older `removeItem` after its internal
`getItem` has settled: an errored read propagates; a read value loosely
unequal to `null` (neither `null` nor `undefined`) triggers the delete;
otherwise the call succeeds without deleting. -/
def removeAfterRead (st : OldState) (key : String) :
    Except StorageError JSValue → Except StorageError Bool × OldState
  | .error e => (.error e, st)
  | .ok data =>
    if ¬ data = .null ∧ ¬ data = .undef then
      (.ok true, { st with idb := kvRemove st.idb key })
    else (.ok true, st)

/-- Older `IndexedDBDatabase.removeItem`: first `getItem`, then
`removeAfterRead` on its outcome. -/
def removeItem (st : OldState) (key : String) : Except StorageError Bool × OldState :=
  match st.conn with
  | some e => (.error (.connection e), st)
  | none => removeAfterRead st key (readMap ((kvLookup st.idb key).getD .undef))

end OldIdb

/-- Modelled from the spec: the `LocalStorage` facade service
(`lib.service.ts`) is not among the source files — only its test suite
is.  Per the spec, `getItem(key, {schema})` delegates to the backend;
when the retrieved value is not the absence marker it is passed to the
external validator, and a rejection fails with a `ValidationError`
carrying the fixed message `JSON invalid`; the absence marker is
returned without invoking validation.  The applied validator is
abstracted as a boolean predicate. -/
def serviceGetItemWithSchema (validate : JSValue → Bool)
    (backendResult : Except StorageError JSValue) : Except StorageError JSValue :=
  match backendResult with
  | .error e => .error e
  | .ok v =>
    if v = .null then .ok .null
    else if validate v then .ok v
    else .error (.validation "JSON invalid")

/-! ## Store lemmas -/

theorem kvLookup_put_self {α : Type} (m : List (String × α)) (k : String) (v : α) :
    kvLookup (kvPut m k v) k = some v := by
  induction m with
  | nil => simp [kvPut, kvLookup]
  | cons p rest ih =>
    cases h : p.1 == k with
    | true => simp [kvPut, kvLookup, h]
    | false => simp [kvPut, kvLookup, h, ih]

theorem kvLookup_append_right {α : Type} (m : List (String × α)) (k : String) (v : α)
    (h : kvLookup m k = none) : kvLookup (m ++ [(k, v)]) k = some v := by
  induction m with
  | nil => simp [kvLookup]
  | cons p rest ih =>
    cases hp : p.1 == k with
    | true => simp [kvLookup, hp] at h
    | false =>
      simp only [kvLookup, hp] at h
      simp only [List.cons_append, kvLookup, hp]
      simp only [Bool.false_eq_true, if_false]
      exact ih h

theorem kvLookup_remove_self {α : Type} (m : List (String × α)) (k : String) :
    kvLookup (kvRemove m k) k = none := by
  induction m with
  | nil => simp [kvRemove, kvLookup]
  | cons p rest ih =>
    cases hp : p.1 == k with
    | true =>
      have : (p.1 != k) = false := by
        simp only [bne]
        rw [hp]
        rfl
      simp only [kvRemove, List.filter] at ih ⊢
      rw [this]
      exact ih
    | false =>
      have : (p.1 != k) = true := by
        simp only [bne]
        rw [hp]
        rfl
      simp only [kvRemove, List.filter] at ih ⊢
      rw [this]
      simp only [kvLookup, hp]
      simp only [Bool.false_eq_true, if_false]
      exact ih

theorem jsonStringifyForStorage_ne_undef (v : JSValue) (h : ¬ v = .undef) :
    jsonStringifyForStorage v = String.mk (serVal v) := by
  cases v with
  | undef => exact absurd rfl h
  | null => rfl
  | bool b => rfl
  | num n => rfl
  | str s => rfl
  | arr vs => rfl
  | obj ms => rfl

/-! ## Backend lemmas -/

theorem IdbState.eta_none (st : IdbState) (h : st.fallback = none) :
    st = ⟨st.idb, none⟩ := by
  cases st with
  | mk a b =>
    change b = none at h
    subst h
    rfl

theorem Idb.unwrap_wrapped (v : JSValue) (hvu : ¬ v = .undef) (hvn : ¬ v = .null) :
    Idb.unwrap (.obj [("value", v)]) = v := by
  have hget : getProp (.obj [("value", v)]) "value" = v := rfl
  unfold Idb.unwrap
  rw [if_pos ⟨by simp, by simp, rfl, rfl, hget ▸ hvu, hget ▸ hvn⟩]
  exact hget

theorem Idb.unwrap_absent : Idb.unwrap .undef = .null := by decide

theorem Idb.getItem_primary (idb : List (String × JSValue)) (k : String) :
    Idb.getItem ⟨idb, none⟩ k = .ok (Idb.unwrap ((kvLookup idb k).getD .undef)) := rfl

theorem Idb.setItem_primary_skip (idb : List (String × JSValue)) (k : String) (d : JSValue)
    (hd : d = .undef ∨ d = .null) :
    Idb.setItem ⟨idb, none⟩ k d = (.ok true, ⟨idb, none⟩) := by
  unfold Idb.setItem
  exact if_pos hd

theorem Idb.setItem_primary_write (idb : List (String × JSValue)) (k : String) (d : JSValue)
    (hdu : ¬ d = .undef) (hdn : ¬ d = .null) :
    (Idb.setItem ⟨idb, none⟩ k d).1 = .ok true ∧
    kvLookup (Idb.setItem ⟨idb, none⟩ k d).2.idb k = some (.obj [("value", d)]) ∧
    (Idb.setItem ⟨idb, none⟩ k d).2.fallback = none := by
  have hne : ¬ (d = .undef ∨ d = .null) := by
    rintro (h | h)
    · exact hdu h
    · exact hdn h
  unfold Idb.setItem
  rw [if_neg hne]
  cases hlk : kvLookup idb k with
  | none =>
    have hadd : kvAdd idb k (JSValue.obj [("value", d)]) =
        .ok (idb ++ [(k, JSValue.obj [("value", d)])]) := by
      unfold kvAdd
      rw [hlk]
      rfl
    rw [hadd]
    exact ⟨rfl, kvLookup_append_right idb k _ hlk, rfl⟩
  | some w => exact ⟨rfl, kvLookup_put_self idb k _, rfl⟩

/-! ## The claims -/

/-- Claim C8: on the fallback backend, `getItem` over a stored text
payload that is not parseable as JSON settles with a deserialization
failure carrying the message `Invalid data in localStorage.` through the
operation's result channel (`LS.getItem` is a total function returning
this `Except.error`, the model of the returned error observable — the
`try`/`catch` in the source prevents a synchronous throw into caller
code). -/
theorem c8_fallback_unparseable_read (ls : LSState) (k text : String)
    (hlk : kvLookup ls.store k = some text) (hbad : jsonParse text = none) :
    LS.getItem ls k = .error (.deserialization "Invalid data in localStorage.") := by
  unfold LS.getItem
  rw [hlk]
  show LS.parseStored text = _
  unfold LS.parseStored
  rw [hbad]

theorem c8_witness :
    kvLookup (⟨[("k", "undefined")]⟩ : LSState).store "k" = some "undefined" ∧
    jsonParse "undefined" = none ∧
    LS.getItem ⟨[("k", "undefined")]⟩ "k" =
      .error (.deserialization "Invalid data in localStorage.") :=
  ⟨by decide, by decide,
    c8_fallback_unparseable_read ⟨[("k", "undefined")]⟩ "k" "undefined"
      (by decide) (by decide)⟩

/-- Claim C6: a key never written (its lookup is empty) or just removed
reads back as a success carrying `null` (the absence marker), never as a
failure, on the primary IndexedDB path and on the localStorage
backend. -/
theorem c6_absent_reads_null (st : IdbState) (ls : LSState) (k : String)
    (hprim : st.fallback = none)
    (habs : kvLookup st.idb k = none) (habs2 : kvLookup ls.store k = none) :
    Idb.getItem st k = .ok .null ∧
    LS.getItem ls k = .ok .null ∧
    (∀ st2 : IdbState, st2.fallback = none →
      Idb.getItem (Idb.removeItem st2 k).2 k = .ok .null) ∧
    (∀ ls2 : LSState, LS.getItem (LS.removeItem ls2 k).2 k = .ok .null) := by
  refine ⟨?_, ?_, ?_, ?_⟩
  · rw [IdbState.eta_none st hprim]
    rw [Idb.getItem_primary, habs]
    rfl
  · unfold LS.getItem
    rw [habs2]
  · intro st2 h2
    rw [IdbState.eta_none st2 h2]
    show Idb.getItem ⟨kvRemove st2.idb k, none⟩ k = .ok .null
    rw [Idb.getItem_primary, kvLookup_remove_self]
    rfl
  · intro ls2
    show LS.getItem ⟨kvRemove ls2.store k⟩ k = .ok .null
    unfold LS.getItem
    rw [kvLookup_remove_self]

theorem c6_witness :
    (⟨[("other", JSValue.num 1)], none⟩ : IdbState).fallback = none ∧
    kvLookup [("other", JSValue.num 1)] "k" = none ∧
    kvLookup ([] : List (String × String)) "k" = none ∧
    Idb.getItem ⟨[("other", JSValue.num 1)], none⟩ "k" = .ok .null :=
  ⟨rfl, by decide, rfl,
    (c6_absent_reads_null ⟨[("other", JSValue.num 1)], none⟩ ⟨[]⟩ "k" rfl (by decide) rfl).1⟩

/-- Claim C5 (amended): on the primary IndexedDB path, `setItem` of
`null` or `undefined` is a successful no-op — result `true`, state
unchanged, so nothing is written, `keys()` is unchanged, and a
previously absent key still reads back as `null`.  On the localStorage
backend (used directly or as the active fallback, which is reached
before the guard), the guard does not exist: `setItem(k, null)` succeeds
and stores the text `null` (creating or modifying an entry, visible in
the store), though `getItem(k)` still emits `null`; `setItem(k,
undefined)` succeeds and stores the text `undefined`, after which
`getItem(k)` fails with the deserialization error. -/
theorem c5_amended (st : IdbState) (k : String) (d : JSValue) (ls : LSState)
    (hprim : st.fallback = none) (hd : d = .null ∨ d = .undef) :
    Idb.setItem st k d = (.ok true, st) ∧
    (kvLookup st.idb k = none → Idb.getItem (Idb.setItem st k d).2 k = .ok .null) ∧
    (LS.setItem ls k .null).1 = .ok true ∧
    (LS.setItem ls k .null).2.store = kvPut ls.store k "null" ∧
    LS.getItem (LS.setItem ls k .null).2 k = .ok .null ∧
    (LS.setItem ls k .undef).1 = .ok true ∧
    (LS.setItem ls k .undef).2.store = kvPut ls.store k "undefined" ∧
    LS.getItem (LS.setItem ls k .undef).2 k =
      .error (.deserialization "Invalid data in localStorage.") := by
  have hd2 : d = .undef ∨ d = .null := hd.symm
  have h1 : Idb.setItem st k d = (.ok true, st) := by
    rw [IdbState.eta_none st hprim]
    exact Idb.setItem_primary_skip st.idb k d hd2
  refine ⟨h1, ?_, rfl, rfl, ?_, rfl, rfl, ?_⟩
  · intro habs
    rw [h1]
    rw [IdbState.eta_none st hprim, Idb.getItem_primary, habs]
    rfl
  · show LS.getItem ⟨kvPut ls.store k "null"⟩ k = .ok .null
    unfold LS.getItem
    rw [kvLookup_put_self]
    rfl
  · show LS.getItem ⟨kvPut ls.store k "undefined"⟩ k = _
    unfold LS.getItem
    rw [kvLookup_put_self]
    rfl

theorem c5_witness :
    (⟨[], none⟩ : IdbState).fallback = none ∧
    (JSValue.null = JSValue.null ∨ JSValue.null = JSValue.undef) ∧
    Idb.setItem ⟨[], none⟩ "k" .null = (.ok true, ⟨[], none⟩) :=
  ⟨rfl, Or.inl rfl,
    (c5_amended ⟨[], none⟩ "k" .null ⟨[]⟩ rfl (Or.inl rfl)).1⟩

/-- Claim C5, counterexample: in fallback mode (localStorage backend
active), `setItem` of `null` creates a visible entry whose key appears
in `keys()`, and `setItem` of `undefined` stores the unparseable text
`undefined`, after which `getItem` fails — contradicting the claimed
no-op on whichever backend is active. -/
theorem c5_counterexample :
    (Idb.setItem ⟨[], some ⟨[]⟩⟩ "key" .null).2.fallback = some ⟨[("key", "null")]⟩ ∧
    Idb.keys (Idb.setItem ⟨[], some ⟨[]⟩⟩ "key" .null).2 = .ok ["key"] ∧
    Idb.getItem (Idb.setItem ⟨[], some ⟨[]⟩⟩ "key" .undef).2 "key" =
      .error (.deserialization "Invalid data in localStorage.") :=
  ⟨rfl, rfl, rfl⟩

/-- Claim C10 (amended): after `removeItem(k)` settles successfully on
the current IndexedDB backend or on the localStorage backend, the key is
gone and `getItem(k)` yields `null`, for every prior state and record
shape.  On the older variant, deletion is conditional on the read-back:
it is guaranteed only when the stored record reads back as a value
loosely unequal to `null`. -/
theorem c10_amended (st : IdbState) (ls : LSState) (k : String)
    (hprim : st.fallback = none) :
    (Idb.removeItem st k).1 = .ok true ∧
    kvLookup (Idb.removeItem st k).2.idb k = none ∧
    Idb.getItem (Idb.removeItem st k).2 k = .ok .null ∧
    (LS.removeItem ls k).1 = .ok true ∧
    kvLookup (LS.removeItem ls k).2.store k = none ∧
    LS.getItem (LS.removeItem ls k).2 k = .ok .null ∧
    (∀ ost : OldState, ost.conn = none →
      ∀ w, OldIdb.readMap ((kvLookup ost.idb k).getD .undef) = .ok w →
        ¬ w = .null → ¬ w = .undef →
        (OldIdb.removeItem ost k).1 = .ok true ∧
        kvLookup (OldIdb.removeItem ost k).2.idb k = none) := by
  rw [IdbState.eta_none st hprim]
  refine ⟨rfl, kvLookup_remove_self _ _, ?_, rfl, kvLookup_remove_self _ _, ?_, ?_⟩
  · show Idb.getItem ⟨kvRemove st.idb k, none⟩ k = .ok .null
    rw [Idb.getItem_primary, kvLookup_remove_self]
    rfl
  · show LS.getItem ⟨kvRemove ls.store k⟩ k = .ok .null
    unfold LS.getItem
    rw [kvLookup_remove_self]
  · intro ost hconn w hw hwn hwu
    cases ost with
    | mk conn idb =>
      change conn = none at hconn
      subst hconn
      change OldIdb.readMap ((kvLookup idb k).getD .undef) = .ok w at hw
      have hres : OldIdb.removeItem ⟨none, idb⟩ k = (.ok true, ⟨none, kvRemove idb k⟩) := by
        show OldIdb.removeAfterRead ⟨none, idb⟩ k
          (OldIdb.readMap ((kvLookup idb k).getD .undef)) = _
        rw [hw]
        show (if ¬ w = .null ∧ ¬ w = .undef then
            ((.ok true : Except StorageError Bool), (⟨none, kvRemove idb k⟩ : OldState))
          else (.ok true, ⟨none, idb⟩)) = _
        rw [if_pos ⟨hwn, hwu⟩]
      rw [hres]
      exact ⟨rfl, kvLookup_remove_self _ _⟩

theorem c10_witness :
    (⟨[("k", JSValue.num 5)], none⟩ : IdbState).fallback = none ∧
    (Idb.removeItem ⟨[("k", JSValue.num 5)], none⟩ "k").1 = .ok true ∧
    kvLookup (Idb.removeItem ⟨[("k", JSValue.num 5)], none⟩ "k").2.idb "k" = none :=
  ⟨rfl,
    (c10_amended ⟨[("k", JSValue.num 5)], none⟩ ⟨[]⟩ "k" rfl).1,
    (c10_amended ⟨[("k", JSValue.num 5)], none⟩ ⟨[]⟩ "k" rfl).2.1⟩

/-- Claim C10, counterexample: on the older variant, removing a key
whose stored record is the wrapper `{ value: null }` settles
successfully but leaves the entry in the store — the key is still
present. -/
theorem c10_counterexample :
    (OldIdb.removeItem ⟨none, [("k", .obj [("value", JSValue.null)])]⟩ "k").1 = .ok true ∧
    kvLookup (OldIdb.removeItem ⟨none, [("k", .obj [("value", JSValue.null)])]⟩ "k").2.idb
      "k" = some (.obj [("value", JSValue.null)]) :=
  ⟨rfl, rfl⟩

/-- Claim C3: set-then-get round trip.  For every key and every
JSON-serializable value (no `undefined` anywhere, not `null`), `setItem`
succeeds and a subsequent `getItem` returns a structurally equal value,
on the primary IndexedDB path (structured-clone storage of the wrapped
record) and on the localStorage backend (serialize, then parse — the
verified codec round trip). -/
theorem c3_roundtrip (st : IdbState) (ls : LSState) (k : String) (v : JSValue)
    (hprim : st.fallback = none) (hnn : ¬ v = .null) (hnu : noUndef v = true) :
    (Idb.setItem st k v).1 = .ok true ∧
    Idb.getItem (Idb.setItem st k v).2 k = .ok v ∧
    (LS.setItem ls k v).1 = .ok true ∧
    LS.getItem (LS.setItem ls k v).2 k = .ok v := by
  have hvu : ¬ v = .undef := ne_undef_of_noUndef v hnu
  rw [IdbState.eta_none st hprim]
  obtain ⟨h1, h2, h3⟩ := Idb.setItem_primary_write st.idb k v hvu hnn
  refine ⟨h1, ?_, rfl, ?_⟩
  · rw [IdbState.eta_none _ h3, Idb.getItem_primary, h2]
    show Except.ok (Idb.unwrap (.obj [("value", v)])) = .ok v
    rw [Idb.unwrap_wrapped v hvu hnn]
  · show LS.getItem ⟨kvPut ls.store k (jsonStringifyForStorage v)⟩ k = .ok v
    unfold LS.getItem
    rw [kvLookup_put_self]
    show LS.parseStored (jsonStringifyForStorage v) = _
    rw [jsonStringifyForStorage_ne_undef v hvu]
    unfold LS.parseStored
    rw [jsonParse_serVal v hnu]

theorem c3_witness :
    (⟨[], none⟩ : IdbState).fallback = none ∧
    ¬ (JSValue.obj [("name", .str "test")]) = .null ∧
    noUndef (JSValue.obj [("name", .str "test")]) = true ∧
    Idb.getItem (Idb.setItem ⟨[], none⟩ "user" (.obj [("name", .str "test")])).2 "user" =
      .ok (.obj [("name", .str "test")]) ∧
    LS.getItem (LS.setItem ⟨[]⟩ "user" (.obj [("name", .str "test")])).2 "user" =
      .ok (.obj [("name", .str "test")]) :=
  ⟨rfl, by decide, by decide,
    (c3_roundtrip ⟨[], none⟩ ⟨[]⟩ "user" (.obj [("name", .str "test")]) rfl
      (by decide) (by decide)).2.1,
    (c3_roundtrip ⟨[], none⟩ ⟨[]⟩ "user" (.obj [("name", .str "test")]) rfl
      (by decide) (by decide)).2.2.2⟩

/-- Claim C4: last write wins.  Two `setItem` calls against the same key
followed by a `getItem` yield the later value, on the primary IndexedDB
path and on the localStorage backend.  The sequential composition here
is also the model of the unobserved-completion case: the engines execute
the two writes in issuance order (IndexedDB serializes its `readwrite`
transactions over one object store in creation order, and `localStorage`
is synchronous), so issuing the second `setItem` without awaiting the
first produces the same final store. -/
theorem c4_last_write_wins (st : IdbState) (ls : LSState) (k : String) (v1 v2 : JSValue)
    (hprim : st.fallback = none)
    (h1n : ¬ v1 = .null) (h1u : ¬ v1 = .undef)
    (h2n : ¬ v2 = .null) (hnu2 : noUndef v2 = true) :
    Idb.getItem (Idb.setItem (Idb.setItem st k v1).2 k v2).2 k = .ok v2 ∧
    LS.getItem (LS.setItem (LS.setItem ls k v1).2 k v2).2 k = .ok v2 := by
  have hvu2 : ¬ v2 = .undef := ne_undef_of_noUndef v2 hnu2
  rw [IdbState.eta_none st hprim]
  obtain ⟨-, -, h3⟩ := Idb.setItem_primary_write st.idb k v1 h1u h1n
  constructor
  · rw [IdbState.eta_none _ h3]
    obtain ⟨-, h2', h3'⟩ :=
      Idb.setItem_primary_write (Idb.setItem ⟨st.idb, none⟩ k v1).2.idb k v2 hvu2 h2n
    rw [IdbState.eta_none _ h3', Idb.getItem_primary, h2']
    show Except.ok (Idb.unwrap (.obj [("value", v2)])) = .ok v2
    rw [Idb.unwrap_wrapped v2 hvu2 h2n]
  · show LS.getItem ⟨kvPut (kvPut ls.store k (jsonStringifyForStorage v1)) k
      (jsonStringifyForStorage v2)⟩ k = .ok v2
    unfold LS.getItem
    rw [kvLookup_put_self]
    show LS.parseStored (jsonStringifyForStorage v2) = _
    rw [jsonStringifyForStorage_ne_undef v2 hvu2]
    unfold LS.parseStored
    rw [jsonParse_serVal v2 hnu2]

theorem c4_witness :
    (⟨[], none⟩ : IdbState).fallback = none ∧
    ¬ (JSValue.str "test1") = .null ∧ ¬ (JSValue.str "test1") = .undef ∧
    ¬ (JSValue.str "test2") = .null ∧ noUndef (JSValue.str "test2") = true ∧
    Idb.getItem (Idb.setItem (Idb.setItem ⟨[], none⟩ "index" (.str "test1")).2 "index"
      (.str "test2")).2 "index" = .ok (.str "test2") :=
  ⟨rfl, by decide, by decide, by decide, by decide,
    (c4_last_write_wins ⟨[], none⟩ ⟨[]⟩ "index" (.str "test1") (.str "test2") rfl
      (by decide) (by decide) (by decide) (by decide)).1⟩

theorem Idb.unwrap_null : Idb.unwrap .null = .null := by decide

/-- Claim C9: dual-shape read tolerance of the current `getItem` on the
primary path.  A stored record that is an object carrying a `value`
member whose content is neither `null` nor `undefined` is unwrapped to
that content; any other stored record that is itself neither `null` nor
`undefined` (raw values written outside the lib, wrappers whose `value`
member is `null` or `undefined`, arrays, primitives) is returned as-is;
a stored `null` or `undefined` record reads as the absence marker. -/
theorem c9_dual_shape_read (st : IdbState) (k : String) (r : JSValue)
    (hprim : st.fallback = none) (hr : kvLookup st.idb k = some r) :
    (∀ ms w, r = .obj ms →
      (ms.find? (fun m => m.1 == "value")).map (fun m => m.2) = some w →
      ¬ w = .undef → ¬ w = .null → Idb.getItem st k = .ok w) ∧
    (¬ r = .undef → ¬ r = .null →
      (∀ ms w, r = .obj ms →
        (ms.find? (fun m => m.1 == "value")).map (fun m => m.2) = some w →
        w = .undef ∨ w = .null) →
      Idb.getItem st k = .ok r) ∧
    ((r = .undef ∨ r = .null) → Idb.getItem st k = .ok .null) := by
  rw [IdbState.eta_none st hprim]
  refine ⟨?_, ?_, ?_⟩
  · intro ms w hms hfind hwu hwn
    subst hms
    rw [Idb.getItem_primary, hr]
    show Except.ok (Idb.unwrap (.obj ms)) = .ok w
    obtain ⟨m, hm, hmw⟩ := Option.map_eq_some'.mp hfind
    have hkey := List.find?_some hm
    have hmem : m ∈ ms := List.mem_of_find?_eq_some hm
    have hany : ms.any (fun m => m.1 == "value") = true := by
      rw [List.any_eq_true]
      exact ⟨m, hmem, hkey⟩
    have hget : getProp (.obj ms) "value" = w := by
      show ((ms.find? (fun m => m.1 == "value")).map (fun m => m.2)).getD .undef = w
      rw [hm]
      simp [hmw]
    unfold Idb.unwrap
    rw [if_pos ⟨by simp, by simp, rfl, hany, hget ▸ hwu, hget ▸ hwn⟩, hget]
  · intro hru hrn hnw
    rw [Idb.getItem_primary, hr]
    show Except.ok (Idb.unwrap r) = .ok r
    unfold Idb.unwrap
    by_cases hc : (¬ r = .undef ∧ ¬ r = .null ∧ jsTypeof r = "object" ∧
        hasProp r "value" = true ∧ ¬ getProp r "value" = .undef ∧
        ¬ getProp r "value" = .null)
    · exfalso
      obtain ⟨-, -, hty, hhas, hgu, hgn⟩ := hc
      cases r with
      | undef => exact hru rfl
      | null => exact hrn rfl
      | bool b => simp [jsTypeof] at hty
      | num n => simp [jsTypeof] at hty
      | str s => simp [jsTypeof] at hty
      | arr vs => exact absurd hhas (by simp [hasProp])
      | obj ms =>
        rw [show hasProp (.obj ms) "value" = ms.any (fun m => m.1 == "value") from rfl,
          List.any_eq_true] at hhas
        obtain ⟨m, hmem, hkey⟩ := hhas
        have hsome : (ms.find? (fun m => m.1 == "value")).isSome = true := by
          rw [List.find?_isSome]
          exact ⟨m, hmem, hkey⟩
        obtain ⟨m', hfind'⟩ := Option.isSome_iff_exists.mp hsome
        have hget : getProp (.obj ms) "value" = m'.2 := by
          show ((ms.find? (fun m => m.1 == "value")).map (fun m => m.2)).getD .undef = m'.2
          rw [hfind']
          rfl
        rcases hnw ms m'.2 rfl (by rw [hfind']; rfl) with h | h
        · exact hgu (hget.trans h)
        · exact hgn (hget.trans h)
    · rw [if_neg hc, if_pos ⟨hru, hrn⟩]
  · rintro (rfl | rfl)
    · rw [Idb.getItem_primary, hr]
      show Except.ok (Idb.unwrap .undef) = .ok .null
      rw [Idb.unwrap_absent]
    · rw [Idb.getItem_primary, hr]
      show Except.ok (Idb.unwrap .null) = .ok .null
      rw [Idb.unwrap_null]

theorem c9_witness :
    (⟨[("k", JSValue.str "raw")], none⟩ : IdbState).fallback = none ∧
    kvLookup [("k", JSValue.str "raw")] "k" = some (.str "raw") ∧
    Idb.getItem ⟨[("k", JSValue.str "raw")], none⟩ "k" = .ok (.str "raw") :=
  ⟨rfl, by decide,
    (c9_dual_shape_read ⟨[("k", JSValue.str "raw")], none⟩ "k" (.str "raw") rfl
      (by decide)).2.1 (by decide) (by decide)
      (fun ms w hms => by cases hms)⟩

instance {ε α : Type} [DecidableEq ε] [DecidableEq α] : DecidableEq (Except ε α) :=
  fun a b =>
    match a, b with
    | .error e, .error f => decidable_of_iff (e = f) (by simp)
    | .ok x, .ok y => decidable_of_iff (x = y) (by simp)
    | .error _, .ok _ => isFalse (by simp)
    | .ok _, .error _ => isFalse (by simp)

theorem IdbState.eta_some (st : IdbState) (ls : LSState) (h : st.fallback = some ls) :
    st = ⟨st.idb, some ls⟩ := by
  cases st with
  | mk a b =>
    change b = some ls at h
    subst h
    rfl

/-- Claim C7: schema-validated reads through the facade.  When the
backend read yields a non-absent value rejected by the validator, the
call fails with the fixed message `JSON invalid`; an accepted value is
returned unchanged; and a `null` (absent) read is returned as-is for
every validator — the validation-failure path cannot be taken. -/
theorem c7_schema_validated_reads (validate : JSValue → Bool) (st : IdbState) (k : String) :
    (∀ v, Idb.getItem st k = .ok v → ¬ v = .null → validate v = false →
      serviceGetItemWithSchema validate (Idb.getItem st k) =
        .error (.validation "JSON invalid")) ∧
    (∀ v, Idb.getItem st k = .ok v → ¬ v = .null → validate v = true →
      serviceGetItemWithSchema validate (Idb.getItem st k) = .ok v) ∧
    (Idb.getItem st k = .ok .null →
      ∀ validate2 : JSValue → Bool,
        serviceGetItemWithSchema validate2 (Idb.getItem st k) = .ok .null) := by
  refine ⟨?_, ?_, ?_⟩
  · intro v hv hvn hval
    rw [hv]
    show (if v = .null then Except.ok JSValue.null
      else if validate v = true then Except.ok v
      else Except.error (StorageError.validation "JSON invalid")) = _
    rw [if_neg hvn, hval]
    rfl
  · intro v hv hvn hval
    rw [hv]
    show (if v = .null then Except.ok JSValue.null
      else if validate v = true then Except.ok v
      else Except.error (StorageError.validation "JSON invalid")) = _
    rw [if_neg hvn, if_pos hval]
  · intro hnull validate2
    rw [hnull]
    show (if JSValue.null = JSValue.null then Except.ok JSValue.null
      else if validate2 JSValue.null = true then Except.ok JSValue.null
      else Except.error (StorageError.validation "JSON invalid")) = _
    rw [if_pos rfl]

theorem c7_witness :
    Idb.getItem ⟨[("index", .obj [("value", .obj [("unexpected", .str "value")])])], none⟩
      "index" = .ok (.obj [("unexpected", .str "value")]) ∧
    ¬ (JSValue.obj [("unexpected", .str "value")]) = .null ∧
    (fun v => beqVal v (.obj [("expected", .str "value")]))
      (.obj [("unexpected", .str "value")]) = false ∧
    serviceGetItemWithSchema (fun v => beqVal v (.obj [("expected", .str "value")]))
      (Idb.getItem ⟨[("index", .obj [("value", .obj [("unexpected", .str "value")])])], none⟩
        "index") = .error (.validation "JSON invalid") :=
  ⟨by decide, by decide, by decide,
    (c7_schema_validated_reads (fun v => beqVal v (.obj [("expected", .str "value")]))
        ⟨[("index", .obj [("value", .obj [("unexpected", .str "value")])])], none⟩ "index").1
      (.obj [("unexpected", .str "value")]) (by decide) (by decide) (by decide)⟩

/-- Claim C1 (amended): on the current `IndexedDBDatabase`, a
synchronous throw of `indexedDB.open` or a failing open sequence
installs the localStorage fallback, and every contract operation then
settles with a success-shaped result — `setItem`, `removeItem`, `clear`,
`keys`, `has` and `size` unconditionally, and `getItem` whenever the
stored text under the key is absent or parseable (a usable fallback);
the connection failure itself is never surfaced.  (The older variant,
cited by the claim, instead errors its connection subject — see the
counterexample.) -/
theorem c1_amended (ls : List (String × String)) (outcome : ConnectOutcome)
    (hfail : outcome = .openThrows ∨ outcome = .openError) (k : String) (d : JSValue) :
    (Idb.connect ls outcome).fallback = some ⟨ls⟩ ∧
    (Idb.setItem (Idb.connect ls outcome) k d).1 = .ok true ∧
    (Idb.removeItem (Idb.connect ls outcome) k).1 = .ok true ∧
    (Idb.clear (Idb.connect ls outcome)).1 = .ok true ∧
    Idb.keys (Idb.connect ls outcome) = .ok (ls.map (fun p => p.1)) ∧
    Idb.has (Idb.connect ls outcome) k = .ok (kvLookup ls k).isSome ∧
    Idb.size (Idb.connect ls outcome) = .ok ls.length ∧
    (kvLookup ls k = none → Idb.getItem (Idb.connect ls outcome) k = .ok .null) ∧
    (∀ text v, kvLookup ls k = some text → jsonParse text = some v →
      Idb.getItem (Idb.connect ls outcome) k = .ok v) := by
  have hc : Idb.connect ls outcome = ⟨[], some ⟨ls⟩⟩ := by
    rcases hfail with rfl | rfl <;> rfl
  rw [hc]
  refine ⟨rfl, rfl, rfl, rfl, rfl, rfl, rfl, ?_, ?_⟩
  · intro habs
    show LS.getItem ⟨ls⟩ k = .ok .null
    unfold LS.getItem
    rw [habs]
  · intro text v hlk hp
    show LS.getItem ⟨ls⟩ k = .ok v
    unfold LS.getItem
    rw [hlk]
    show LS.parseStored text = _
    unfold LS.parseStored
    rw [hp]

theorem c1_witness :
    (Idb.connect [("a", "1")] .openThrows).fallback = some ⟨[("a", "1")]⟩ ∧
    Idb.keys (Idb.connect [("a", "1")] .openThrows) = .ok ["a"] :=
  ⟨(c1_amended [("a", "1")] .openThrows (Or.inl rfl) "a" .null).1,
    (c1_amended [("a", "1")] .openThrows (Or.inl rfl) "a" .null).2.2.2.2.1⟩

/-- Claim C1, counterexample: the older `IndexedDBDatabase` variant (a
`connect` the claim also cites) has no fallback member: a failing open
sequence errors the connection subject, and a subsequent `getItem`
settles with that connection failure — the caller observes it even
though the ambient `localStorage` is perfectly usable. -/
theorem c1_counterexample :
    OldIdb.getItem (OldIdb.connect (.errorEvent "error")) "user" =
      .error (.connection "IndexedDB connection issue : error.") := rfl

/-- Each contract operation preserves an installed fallback. -/
theorem Idb.applyOp_fallback_some (op : DBOp) (st : IdbState)
    (h : st.fallback.isSome = true) : (Idb.applyOp op st).fallback.isSome = true := by
  obtain ⟨ls, hls⟩ := Option.isSome_iff_exists.mp h
  rw [IdbState.eta_some st ls hls]
  cases op <;> rfl

/-- Claim C2: the fallback flag moves in one direction only.  From any
state with an installed fallback, every state reachable under contract
operations still has one, and every contract operation on such a state
delegates unconditionally to the fallback backend (same result, and the
new fallback is exactly the fallback backend's updated state). -/
theorem c2_fallback_permanent (st st' : IdbState) (hreach : Reachable st st')
    (hf : st.fallback.isSome = true) :
    st'.fallback.isSome = true ∧
    ∀ ls, st'.fallback = some ls →
      (∀ k, Idb.getItem st' k = LS.getItem ls k) ∧
      (∀ k v, (Idb.setItem st' k v).1 = (LS.setItem ls k v).1 ∧
        (Idb.setItem st' k v).2.fallback = some (LS.setItem ls k v).2) ∧
      (∀ k, (Idb.removeItem st' k).1 = (LS.removeItem ls k).1 ∧
        (Idb.removeItem st' k).2.fallback = some (LS.removeItem ls k).2) ∧
      ((Idb.clear st').1 = (LS.clear ls).1 ∧
        (Idb.clear st').2.fallback = some (LS.clear ls).2) ∧
      Idb.keys st' = LS.keys ls ∧
      (∀ k, Idb.has st' k = LS.has ls k) ∧
      Idb.size st' = LS.size ls := by
  have hsome : st'.fallback.isSome = true := by
    induction hreach with
    | refl => exact hf
    | step b op h ih => exact Idb.applyOp_fallback_some op b ih
  refine ⟨hsome, ?_⟩
  intro ls hls
  rw [IdbState.eta_some st' ls hls]
  exact ⟨fun k => rfl, fun k v => ⟨rfl, rfl⟩, fun k => ⟨rfl, rfl⟩, ⟨rfl, rfl⟩, rfl,
    fun k => rfl, rfl⟩

theorem c2_witness :
    (Idb.applyOp (.set "a" (.num 1)) ⟨[], some ⟨[]⟩⟩).fallback.isSome = true :=
  (c2_fallback_permanent ⟨[], some ⟨[]⟩⟩ (Idb.applyOp (.set "a" (.num 1)) ⟨[], some ⟨[]⟩⟩)
    (Reachable.step _ _ _ (Reachable.refl _)) rfl).1

end AsyncLocalStorage
